import Mathlib

/-!
Verification of the DGGS data-integration pipeline
(`ogc-code-sprint-data-integration.ipynb`) against its specification.

The notebook's pipeline stages are embedded shallowly:

* `aggregate` (cell-11): for every pixel of a raster, the pixel is mapped
  to an H3 cell and the per-pixel `(h3_index, value)` tuples are collected
  into a flat list (`pixelList`) which is then grouped by cell with the
  arithmetic mean (`groupbyMean`), exactly as
  `pd.DataFrame(values).groupby('h3_index').mean()` does.  The affine
  transform composed with `h3.latlng_to_cell` is abstracted as an opaque
  pixel-to-cell map `cellOf : Nat → Nat → CellId`, and pixel samples are
  rationals.
* `assign_h3_to_population` (cell-11): adds the `h3_index` column to the
  caller-supplied dataframe in place and returns that same object; the
  embedding returns the pair (caller's object after the call, returned
  object) to make the in-place update visible.
* the census groupby-sum plus `EMP_PERC` derivation (cell-18) as
  `populationSummary`.
* the min-max normalization of the ndvi column (cell-13) as `normalize`.
* the `merge(..., how='left').dropna()` pipeline (cell-22) as
  `mergeDropna`.

Values produced by divisions that pandas performs in IEEE floating point
are modelled by `FloatVal`, a rational tagged with the special values
`inf`, `ninf` and `nan`, and `fdivQ`, division of two finite values with
the IEEE conventions for a zero divisor.  Finite arithmetic is exact
(rational) rather than rounded; none of the claims below concerns
rounding.
-/

/-- An H3 cell identifier: opaque, here a natural number. -/
abbrev CellId := Nat

/-- A decoded raster as `aggregate` consumes it: `array = src.read(1)`
gives the sample at each `(row, col)`, with `array.shape = (rows, cols)`. -/
structure Raster where
  rows : Nat
  cols : Nat
  data : Nat → Nat → ℚ

/-- The flat per-pixel list that `aggregate` builds: the double loop
`for row in range(rows): for col in range(cols):
values.append((h3_index, float(array[row, col])))`, with the composition
of the affine transform and `h3.latlng_to_cell` abstracted as `cellOf`. -/
def pixelList (r : Raster) (cellOf : Nat → Nat → CellId) : List (CellId × ℚ) :=
  (List.range r.rows).flatMap fun row =>
    (List.range r.cols).map fun col => (cellOf row col, r.data row col)

/-- Sum of the values of the tuples carrying cell `c`. -/
def sumFor (vs : List (CellId × ℚ)) (c : CellId) : ℚ :=
  ((vs.filter fun p => p.1 = c).map Prod.snd).sum

/-- Number of tuples carrying cell `c`. -/
def countFor (vs : List (CellId × ℚ)) (c : CellId) : Nat :=
  (vs.filter fun p => p.1 = c).length

/-- `df.groupby('h3_index', as_index=False).mean()`: one row per distinct
cell, carrying the arithmetic mean of the values grouped under it. -/
def groupbyMean (vs : List (CellId × ℚ)) : List (CellId × ℚ) :=
  ((vs.map Prod.fst).dedup).map fun c =>
    (c, sumFor vs c / (countFor vs c : ℚ))

/-- `aggregate(raster, resolution, field)` of cell-11: build the flat
per-pixel list, then group it by `h3_index` with the mean.  Every pixel of
the array is appended; no pixel value is tested against a no-data
sentinel anywhere in the function. -/
def aggregate (r : Raster) (cellOf : Nat → Nat → CellId) : List (CellId × ℚ) :=
  groupbyMean (pixelList r cellOf)

/-- A pandas floating-point value: a finite value (kept exact as a
rational) or one of the IEEE special values that pandas division can
produce. -/
inductive FloatVal where
  | fin : ℚ → FloatVal
  | inf : FloatVal
  | ninf : FloatVal
  | nan : FloatVal
deriving DecidableEq

/-- IEEE division of two finite values, as pandas performs it
elementwise: a zero divisor yields nan for a zero dividend and a signed
infinity otherwise; no exception is raised. -/
def fdivQ (a b : ℚ) : FloatVal :=
  if b = 0 then
    (if a = 0 then FloatVal.nan else if 0 < a then FloatVal.inf else FloatVal.ninf)
  else FloatVal.fin (a / b)

/-- `series.min()` of a nonempty column. -/
def colMin : List ℚ → ℚ
  | [] => 0
  | x :: xs => xs.foldl min x

/-- `series.max()` of a nonempty column. -/
def colMax : List ℚ → ℚ
  | [] => 0
  | x :: xs => xs.foldl max x

/-- Cell-13: the min-max normalization
`ndvi_df["ndvi"] = (col - col.min()) / (col.max() - col.min())`,
elementwise over the column. -/
def normalize_ndvi (col : List ℚ) : List FloatVal :=
  col.map fun v => fdivQ (v - colMin col) (colMax col - colMin col)

/-- One census record as cell-18 uses it after the column selection
`population_data[["h3_index", "T", "M", "F", "EMP"]]`. -/
structure CensusRecord where
  h3_index : CellId
  T : ℚ
  M : ℚ
  F : ℚ
  EMP : ℚ
deriving DecidableEq

/-- One row of the grouped census table, the derived ratio included. -/
structure CensusSummary where
  h3_index : CellId
  T : ℚ
  M : ℚ
  F : ℚ
  EMP : ℚ
  EMP_PERC : FloatVal
deriving DecidableEq

/-- Sum of one numeric attribute over the records of cell `c`. -/
def sumBy (recs : List CensusRecord) (c : CellId) (f : CensusRecord → ℚ) : ℚ :=
  ((recs.filter fun x => x.h3_index = c).map f).sum

/-- Cell-18: `population_data.groupby("h3_index", as_index=False).sum()`
followed by
`population_data["EMP_PERC"] = population_data["EMP"] * 100 / population_data["T"]`:
one row per distinct cell, each numeric attribute summed over the group,
and the ratio computed afterwards from the summed columns. -/
def populationSummary (recs : List CensusRecord) : List CensusSummary :=
  ((recs.map CensusRecord.h3_index).dedup).map fun c =>
    { h3_index := c
      T := sumBy recs c CensusRecord.T
      M := sumBy recs c CensusRecord.M
      F := sumBy recs c CensusRecord.F
      EMP := sumBy recs c CensusRecord.EMP
      EMP_PERC := fdivQ (sumBy recs c CensusRecord.EMP * 100) (sumBy recs c CensusRecord.T) }

/-- Cell-22's `left.merge(right, on='h3_index', how='left')`: every left
row is kept; a row finding no key match on the right carries a null
(`none`) in the right-hand column. -/
def mergeLeft (left right : List (CellId × ℚ)) : List (CellId × ℚ × Option ℚ) :=
  left.flatMap fun p =>
    if (right.filter fun q => q.1 = p.1) = [] then [(p.1, p.2, none)]
    else (right.filter fun q => q.1 = p.1).map fun q => (p.1, p.2, some q.2)

/-- `.dropna()`: rows carrying a null are removed. -/
def dropna (t : List (CellId × ℚ × Option ℚ)) : List (CellId × ℚ × ℚ) :=
  t.filterMap fun x => x.2.2.map fun b => (x.1, x.2.1, b)

/-- Cell-22's join pipeline: `merge(..., how='left').dropna()`.  No check
of any kind precedes the merge. -/
def mergeDropna (left right : List (CellId × ℚ)) : List (CellId × ℚ × ℚ) :=
  dropna (mergeLeft left right)

/-- The GridIndexer error taxonomy of spec §7. -/
inductive IndexError where
  | invalidCoordinate
  | invalidResolution
deriving DecidableEq

/-- Modelled from the spec: the GridIndexer `index` operation of §4.1.
The implementation behind `h3.latlng_to_cell` is the external h3 library,
not code of this repository — src only calls it (cell-11, twice) — so the
operation is modelled from the spec's words: latitude outside [-90, 90]
or longitude outside [-180, 180] signals `InvalidCoordinate`, a
resolution outside the supported set 0–15 signals `InvalidResolution`,
and a cell is computed only for in-range inputs (never by clamping them);
the cell function itself stays abstract. -/
def index (cell : ℚ → ℚ → ℤ → CellId) (lat lon : ℚ) (resolution : ℤ) :
    Except IndexError CellId :=
  if lat < -90 ∨ 90 < lat ∨ lon < -180 ∨ 180 < lon then .error .invalidCoordinate
  else if resolution < 0 ∨ 15 < resolution then .error .invalidResolution
  else .ok (cell lat lon resolution)

/-- A point geometry of the census geodataframe (`geom.x`, `geom.y`). -/
structure GeoPoint where
  x : ℚ
  y : ℚ
deriving DecidableEq

/-- The census geodataframe as `assign_h3_to_population` sees it: the
point geometries plus the `h3_index` column, present (`some`) or absent
(`none`). -/
structure PopulationData where
  geometry : List GeoPoint
  h3_index : Option (List CellId)
deriving DecidableEq

/-- Cell-11's `assign_h3_to_population`: it executes
`population_data['h3_index'] = population_data.geometry.apply(lambda geom:
h3.latlng_to_cell(geom.y, geom.x, resolution))` — an in-place column
assignment on the argument object — and then `return population_data`,
the same object.  The embedding passes the mutation explicitly: the
result is the pair (state of the caller's object after the call, returned
object), and the Python function makes the two one and the same object. -/
def assign_h3_to_population (latlng_to_cell : ℚ → ℚ → Nat → CellId)
    (population_data : PopulationData) (resolution : Nat) :
    PopulationData × PopulationData :=
  let updated : PopulationData :=
    { population_data with
        h3_index := some (population_data.geometry.map fun g =>
          latlng_to_cell g.y g.x resolution) }
  (updated, updated)

/-- Every element of the per-pixel list is a pixel of the raster. -/
theorem mem_pixelList {r : Raster} {cellOf : Nat → Nat → CellId} {q : CellId × ℚ}
    (hq : q ∈ pixelList r cellOf) :
    ∃ row col, row < r.rows ∧ col < r.cols ∧ q = (cellOf row col, r.data row col) := by
  simp only [pixelList, List.mem_flatMap, List.mem_map, List.mem_range] at hq
  obtain ⟨row, hrow, col, hcol, rfl⟩ := hq
  exact ⟨row, col, hrow, hcol, rfl⟩

theorem sum_map_const {α : Type} (l : List α) (c : Nat) :
    (l.map fun _ => c).sum = l.length * c := by
  induction l with
  | nil => simp
  | cons x xs ih => simp [ih, Nat.succ_mul, Nat.add_comm]

/-- The list `values` of `aggregate` holds one tuple per pixel. -/
theorem pixelList_length (r : Raster) (cellOf : Nat → Nat → CellId) :
    (pixelList r cellOf).length = r.rows * r.cols := by
  simp [pixelList, List.length_flatMap, Function.comp_def, sum_map_const, Nat.mul_comm]

/-- Claim C1 (code_bug evidence).  The notebook's `aggregate` never tests a
pixel against a no-data sentinel: every pixel is appended to `values` and
enters the group mean.  For a 1×3 raster whose single valid pixel has value
10 and whose two remaining pixels carry the declared sentinel -1, all three
pixels mapping to cell 0, the emitted row is `(0, 8/3)` with count 3 — not
mean 10 with count 1 as the claim requires. -/
theorem aggregate_includes_nodata_pixels :
    aggregate ⟨1, 3, fun _ col => if col = 0 then 10 else -1⟩ (fun _ _ => 0) = [(0, 8 / 3)]
    ∧ countFor (pixelList ⟨1, 3, fun _ col => if col = 0 then 10 else -1⟩ (fun _ _ => 0)) 0 = 3
    ∧ aggregate ⟨1, 3, fun _ col => if col = 0 then 10 else -1⟩ (fun _ _ => 0) ≠ [(0, 10)] := by
  refine ⟨?_, ?_, ?_⟩ <;>
    norm_num [aggregate, pixelList, groupbyMean, sumFor, countFor, List.range_succ, List.dedup]

/-- Claim C2.  `aggregate` emits exactly one row per distinct cell touched by
some pixel (the keys of the grouped table are the deduplicated keys of the
per-pixel list, without repetition), each emitted value is the sum of the
contributing pixel values divided by their count, a raster of uniform value v
yields mean v for every emitted cell, and two pixels of values a and b mapped
to the same cell yield the single row `(c, (a+b)/2)`. -/
theorem aggregate_mean_per_distinct_cell :
    (∀ (r : Raster) (cellOf : Nat → Nat → CellId),
        ((aggregate r cellOf).map Prod.fst = ((pixelList r cellOf).map Prod.fst).dedup
          ∧ ((aggregate r cellOf).map Prod.fst).Nodup)
        ∧ (∀ p ∈ aggregate r cellOf,
            p.2 = sumFor (pixelList r cellOf) p.1 / (countFor (pixelList r cellOf) p.1 : ℚ))
        ∧ (∀ v : ℚ, (∀ row col, row < r.rows → col < r.cols → r.data row col = v) →
            ∀ p ∈ aggregate r cellOf, p.2 = v))
    ∧ (∀ a b : ℚ,
        aggregate ⟨1, 2, fun _ col => if col = 0 then a else b⟩ (fun _ _ => 0) =
          [(0, (a + b) / 2)])
    ∧ aggregate ⟨2, 2, fun _ _ => 3⟩ (fun _ _ => 0) = [(0, 3)] := by
  refine ⟨fun r cellOf => ⟨⟨?_, ?_⟩, ?_, ?_⟩, fun a b => ?_, ?_⟩
  · simp [aggregate, groupbyMean, List.map_map, Function.comp_def]
  · rw [show (aggregate r cellOf).map Prod.fst = ((pixelList r cellOf).map Prod.fst).dedup by
      simp [aggregate, groupbyMean, List.map_map, Function.comp_def]]
    exact List.nodup_dedup _
  · intro p hp
    simp only [aggregate, groupbyMean, List.mem_map] at hp
    obtain ⟨c, _, rfl⟩ := hp
    rfl
  · intro v hv p hp
    simp only [aggregate, groupbyMean, List.mem_map] at hp
    obtain ⟨c, hc, rfl⟩ := hp
    rw [List.mem_dedup, List.mem_map] at hc
    obtain ⟨q, hq, rfl⟩ := hc
    have hqf : q ∈ (pixelList r cellOf).filter (fun p => p.1 = q.1) :=
      List.mem_filter.mpr ⟨hq, by simp⟩
    have hcount : countFor (pixelList r cellOf) q.1 ≠ 0 :=
      Nat.pos_iff_ne_zero.mp (List.length_pos.mpr (List.ne_nil_of_mem hqf))
    have hall : ∀ x ∈ ((pixelList r cellOf).filter fun p => p.1 = q.1).map Prod.snd,
        x = v := by
      intro x hx
      simp only [List.mem_map, List.mem_filter] at hx
      obtain ⟨y, ⟨hy, _⟩, rfl⟩ := hx
      obtain ⟨row, col, hrow, hcol, rfl⟩ := mem_pixelList hy
      exact hv row col hrow hcol
    have hsum : sumFor (pixelList r cellOf) q.1 = (countFor (pixelList r cellOf) q.1) • v := by
      simp only [sumFor, countFor]
      rw [List.sum_eq_card_nsmul _ v hall, List.length_map]
    show sumFor (pixelList r cellOf) q.1 / (countFor (pixelList r cellOf) q.1 : ℚ) = v
    rw [hsum, nsmul_eq_mul]
    exact mul_div_cancel_left₀ v (Nat.cast_ne_zero.mpr hcount)
  · norm_num [aggregate, pixelList, groupbyMean, sumFor, countFor, List.range_succ, List.dedup]
  · norm_num [aggregate, pixelList, groupbyMean, sumFor, countFor, List.range_succ, List.dedup]

/-- Claim C3 (code_bug evidence).  `aggregate` materializes the flat list
`values` holding one `(h3_index, value)` tuple per pixel — its length is
`rows * cols`, the pixel count — and only groups it at the end
(`aggregate = groupbyMean (pixelList ...)` by definition).  For a 1×3 raster
whose pixels all fall in one cell the intermediate list has 3 entries while
only 1 distinct cell is touched, so the live intermediate state is
proportional to the pixel count, not to the number of distinct cells. -/
theorem aggregate_builds_per_pixel_list :
    (∀ (r : Raster) (cellOf : Nat → Nat → CellId),
        (pixelList r cellOf).length = r.rows * r.cols
        ∧ aggregate r cellOf = groupbyMean (pixelList r cellOf))
    ∧ (pixelList ⟨1, 3, fun _ _ => (5 : ℚ)⟩ (fun _ _ => 0)).length = 3
    ∧ (((pixelList ⟨1, 3, fun _ _ => (5 : ℚ)⟩ (fun _ _ => 0)).map Prod.fst).dedup).length = 1 := by
  refine ⟨fun r cellOf => ⟨pixelList_length r cellOf, rfl⟩, ?_, ?_⟩ <;>
    norm_num [pixelList, List.range_succ, List.dedup]

theorem foldl_min_const (v : ℚ) (xs : List ℚ) (x : ℚ) (hx : x = v)
    (h : ∀ y ∈ xs, y = v) : xs.foldl min x = v := by
  induction xs generalizing x with
  | nil => simpa using hx
  | cons z zs ih =>
      have hz : z = v := h z (by simp)
      exact ih (min x z) (by simp [hx, hz]) (fun y hy => h y (by simp [hy]))

theorem foldl_max_const (v : ℚ) (xs : List ℚ) (x : ℚ) (hx : x = v)
    (h : ∀ y ∈ xs, y = v) : xs.foldl max x = v := by
  induction xs generalizing x with
  | nil => simpa using hx
  | cons z zs ih =>
      have hz : z = v := h z (by simp)
      exact ih (max x z) (by simp [hx, hz]) (fun y hy => h y (by simp [hy]))

theorem colMin_const (col : List ℚ) (v : ℚ) (hne : col ≠ [])
    (h : ∀ x ∈ col, x = v) : colMin col = v := by
  cases col with
  | nil => exact absurd rfl hne
  | cons c cs =>
      exact foldl_min_const v cs c (h c (by simp)) (fun y hy => h y (by simp [hy]))

theorem colMax_const (col : List ℚ) (v : ℚ) (hne : col ≠ [])
    (h : ∀ x ∈ col, x = v) : colMax col = v := by
  cases col with
  | nil => exact absurd rfl hne
  | cons c cs =>
      exact foldl_max_const v cs c (h c (by simp)) (fun y hy => h y (by simp [hy]))

/-- Claim C7, amended.  Cell-13 performs the min-max division elementwise
with no error channel: on a constant column the divisor `max - min` and
every dividend `v - min` are 0, so every row's result is the IEEE value of
`0/0` — the not-a-number sentinel, uniformly for every row and never an
infinity.  No `DegenerateRange` condition is signaled anywhere: the
operation's result is the plain divided column itself. -/
theorem normalize_ndvi_constant_nan (col : List ℚ) (v : ℚ)
    (hconst : ∀ x ∈ col, x = v) :
    ∀ y ∈ normalize_ndvi col, y = FloatVal.nan := by
  intro y hy
  simp only [normalize_ndvi, List.mem_map] at hy
  obtain ⟨x, hx, rfl⟩ := hy
  have hne : col ≠ [] := List.ne_nil_of_mem hx
  rw [hconst x hx, colMin_const col v hne hconst, colMax_const col v hne hconst]
  simp [fdivQ]

/-- Witness for the amended claim C7: on the constant column `[5, 5]` the
first normalized entry is the not-a-number sentinel. -/
theorem normalize_ndvi_constant_nan_witness :
    (normalize_ndvi [5, 5]).headD FloatVal.inf = FloatVal.nan :=
  normalize_ndvi_constant_nan [5, 5] 5 (by norm_num)
    ((normalize_ndvi [5, 5]).headD FloatVal.inf)
    (by norm_num [normalize_ndvi, colMin, colMax, fdivQ])

/-- Counterexample to claim C7 as stated.  Normalizing the constant column
`[5, 5]` does not signal any `DegenerateRange` condition: the operation
returns the silently divided column itself, and each returned row is
exactly the value of the division `0/0` (which IEEE arithmetic makes NaN,
not an infinity).  The claimed behavior — an explicit signal, or a
sentinel propagated by anything other than the silent `0/0` division the
claim rules out — does not occur. -/
theorem normalize_ndvi_degenerate_counterexample :
    normalize_ndvi [5, 5] = [FloatVal.nan, FloatVal.nan]
    ∧ fdivQ 0 0 = FloatVal.nan
    ∧ FloatVal.inf ∉ normalize_ndvi [5, 5] := by
  refine ⟨?_, ?_, ?_⟩ <;> norm_num [normalize_ndvi, colMin, colMax, fdivQ]
  decide

/-- Claim C4.  Cell-18 groups the census records by `h3_index`, sums every
numeric attribute across each group (`groupby(...).sum()` — never a mean),
and only then computes the derived ratio `EMP_PERC = EMP * 100 / T` from
the summed columns, once per group.  For two records in one cell with
total 10 / employed 3 and total 20 / employed 7 the emitted row has
total 30, employed 10 and `EMP_PERC = 100/3` (33.33...%), which differs
from the 32.5 that averaging 30% and 35% would give. -/
theorem population_summary_sums_then_ratio :
    (∀ recs : List CensusRecord, ∀ s ∈ populationSummary recs,
        s.T = sumBy recs s.h3_index CensusRecord.T
        ∧ s.M = sumBy recs s.h3_index CensusRecord.M
        ∧ s.F = sumBy recs s.h3_index CensusRecord.F
        ∧ s.EMP = sumBy recs s.h3_index CensusRecord.EMP
        ∧ s.EMP_PERC = fdivQ (s.EMP * 100) s.T)
    ∧ populationSummary [⟨0, 10, 0, 0, 3⟩, ⟨0, 20, 0, 0, 7⟩] =
        [⟨0, 30, 0, 0, 10, FloatVal.fin (100 / 3)⟩]
    ∧ ((100 : ℚ) / 3 ≠ (30 + 35) / 2) := by
  refine ⟨?_, ?_, by norm_num⟩
  · intro recs s hs
    simp only [populationSummary, List.mem_map] at hs
    obtain ⟨c, _, rfl⟩ := hs
    exact ⟨rfl, rfl, rfl, rfl, rfl⟩
  · norm_num [populationSummary, sumBy, fdivQ, List.dedup]

/-- Claim C8 (code_bug evidence).  When a cell group's summed denominator
`T` is zero, cell-18's `EMP_PERC = EMP * 100 / T` is the elementwise
pandas division: it raises nothing and produces positive infinity for a
positive summed `EMP` (and NaN when the summed `EMP` is 0 too) — no
`DivisionByZero` condition exists anywhere in the notebook. -/
theorem emp_perc_zero_denominator_infinity :
    populationSummary [⟨0, 0, 0, 0, 3⟩] = [⟨0, 0, 0, 0, 3, FloatVal.inf⟩]
    ∧ populationSummary [⟨0, 0, 0, 0, 0⟩] = [⟨0, 0, 0, 0, 0, FloatVal.nan⟩] := by
  constructor <;> norm_num [populationSummary, sumBy, fdivQ, List.dedup]

theorem mem_mergeDropna {left right : List (CellId × ℚ)} {row : CellId × ℚ × ℚ} :
    row ∈ mergeDropna left right ↔
      ∃ p ∈ left, ∃ q ∈ right, q.1 = p.1 ∧ row = (p.1, p.2, q.2) := by
  constructor
  · intro h
    simp only [mergeDropna, dropna, mergeLeft, List.mem_filterMap, List.mem_flatMap] at h
    obtain ⟨x, ⟨p, hp, hx⟩, hmap⟩ := h
    by_cases hempty : (right.filter fun q => q.1 = p.1) = []
    · rw [if_pos hempty] at hx
      simp only [List.mem_singleton] at hx
      subst hx
      simp at hmap
    · rw [if_neg hempty] at hx
      simp only [List.mem_map] at hx
      obtain ⟨q, hq, rfl⟩ := hx
      rw [List.mem_filter] at hq
      simp only [Option.map_some'] at hmap
      refine ⟨p, hp, q, hq.1, ?_, ?_⟩
      · simpa using hq.2
      · cases hmap; rfl
  · rintro ⟨p, hp, q, hq, hkey, rfl⟩
    simp only [mergeDropna, dropna, mergeLeft, List.mem_filterMap, List.mem_flatMap]
    refine ⟨(p.1, p.2, some q.2), ⟨p, hp, ?_⟩, rfl⟩
    have hqmem : q ∈ right.filter fun q => q.1 = p.1 :=
      List.mem_filter.mpr ⟨hq, by simp [hkey]⟩
    rw [if_neg (List.ne_nil_of_mem hqmem)]
    exact List.mem_map.mpr ⟨q, hqmem, rfl⟩

/-- Claim C5.  The cell-22 pipeline — left-join on `h3_index` followed by
`dropna()` — emits a cell identifier exactly when it appears in both
joined inputs; in particular a key present on the left but absent from
the right (the spec's table A = {c1, c2} against table B = {c1} test)
survives the left-join only as a null row and is then dropped, and every
emitted row carries a concrete (non-null) value in every joined column by
construction of its type. -/
theorem merge_dropna_inner_join :
    (∀ (left right : List (CellId × ℚ)) (c : CellId),
        c ∈ (mergeDropna left right).map (fun row => row.1) ↔
          c ∈ left.map Prod.fst ∧ c ∈ right.map Prod.fst)
    ∧ mergeDropna [(1, 1), (2, 2)] [(1, 1)] = [(1, 1, 1)] := by
  refine ⟨?_, ?_⟩
  · intro left right c
    simp only [List.mem_map]
    constructor
    · rintro ⟨row, hrow, rfl⟩
      obtain ⟨p, hp, q, hq, hkey, rfl⟩ := mem_mergeDropna.mp hrow
      exact ⟨⟨p, hp, rfl⟩, ⟨q, hq, hkey⟩⟩
    · rintro ⟨⟨p, hp, rfl⟩, ⟨q, hq, hkey⟩⟩
      exact ⟨(p.1, p.2, q.2), mem_mergeDropna.mpr ⟨p, hp, q, hq, hkey, rfl⟩, rfl⟩
  · norm_num [mergeDropna, mergeLeft, dropna, List.filterMap_cons]

/-- Claim C9 (code_bug evidence).  Nothing in cell-22 inspects the
resolution of the tables being merged: joining a table whose single cell
identifier comes from resolution 7 with one whose identifier comes from
resolution 6 (two distinct keys, here 71 and 61) silently yields the
empty table — both inputs being nonempty — instead of any
`JoinKeyMismatch` rejection. -/
theorem merge_dropna_resolution_mismatch_silent :
    mergeDropna [(71, 1)] [(61, 2)] = [] ∧ ((71 : CellId) ≠ 61)
    ∧ ([((71 : CellId), (1 : ℚ))] ≠ []) := by
  refine ⟨?_, by norm_num, by norm_num⟩
  norm_num [mergeDropna, mergeLeft, dropna]

/-- Claim C6 (spec-modelled).  The GridIndexer `index` operation —
modelled from spec §4.1, since the implementation behind
`h3.latlng_to_cell` is the external h3 library and not code of this
repository — signals `InvalidCoordinate` for a latitude outside
[-90, 90] or a longitude outside [-180, 180], signals
`InvalidResolution` for a resolution outside the supported set 0–15, and
returns a cell only when every input is in range, so an out-of-range
input is never silently clamped to a valid one. -/
theorem index_rejects_out_of_range :
    (∀ (cell : ℚ → ℚ → ℤ → CellId) (lat lon : ℚ) (res : ℤ),
        ((lat < -90 ∨ 90 < lat ∨ lon < -180 ∨ 180 < lon) →
          index cell lat lon res = Except.error IndexError.invalidCoordinate)
        ∧ ((-90 ≤ lat ∧ lat ≤ 90 ∧ -180 ≤ lon ∧ lon ≤ 180) → (res < 0 ∨ 15 < res) →
          index cell lat lon res = Except.error IndexError.invalidResolution)
        ∧ (∀ c : CellId, index cell lat lon res = Except.ok c →
          -90 ≤ lat ∧ lat ≤ 90 ∧ -180 ≤ lon ∧ lon ≤ 180 ∧ 0 ≤ res ∧ res ≤ 15))
    ∧ index (fun _ _ _ => 0) 91 0 7 = Except.error IndexError.invalidCoordinate
    ∧ index (fun _ _ _ => 0) 50 4 16 = Except.error IndexError.invalidResolution := by
  refine ⟨fun cell lat lon res => ⟨?_, ?_, ?_⟩, ?_, ?_⟩
  · intro h
    simp only [index]
    rw [if_pos h]
  · rintro ⟨h1, h2, h3, h4⟩ hres
    have hc : ¬(lat < -90 ∨ 90 < lat ∨ lon < -180 ∨ 180 < lon) := by
      push_neg
      exact ⟨h1, h2, h3, h4⟩
    simp only [index]
    rw [if_neg hc, if_pos hres]
  · intro c hc
    by_cases h1 : lat < -90 ∨ 90 < lat ∨ lon < -180 ∨ 180 < lon
    · simp only [index] at hc
      rw [if_pos h1] at hc
      simp at hc
    · by_cases h2 : res < 0 ∨ 15 < res
      · simp only [index] at hc
        rw [if_neg h1, if_pos h2] at hc
        simp at hc
      · push_neg at h1 h2
        exact ⟨h1.1, h1.2.1, h1.2.2.1, h1.2.2.2, h2.1, h2.2⟩
  · norm_num [index]
  · norm_num [index]

/-- Claim C10 (code_bug evidence).  `assign_h3_to_population` assigns the
`h3_index` column on its argument object in place and then returns that
very object: the caller's dataframe after the call is the returned table
(first conjunct), its `h3_index` column is now always present while the
point geometries are untouched, and for a concrete input dataframe that
had no `h3_index` column the caller's object after the call differs from
the object passed in — the input is mutated, and no fresh table is
created. -/
theorem assign_h3_mutates_caller_input :
    (∀ (latlng_to_cell : ℚ → ℚ → Nat → CellId) (pd : PopulationData) (res : Nat),
        (assign_h3_to_population latlng_to_cell pd res).1 =
          (assign_h3_to_population latlng_to_cell pd res).2
        ∧ ((assign_h3_to_population latlng_to_cell pd res).1.h3_index).isSome = true
        ∧ (assign_h3_to_population latlng_to_cell pd res).1.geometry = pd.geometry)
    ∧ (assign_h3_to_population (fun _ _ _ => 0) ⟨[⟨4, 50⟩], none⟩ 7).1 ≠
        (⟨[⟨4, 50⟩], none⟩ : PopulationData) := by
  refine ⟨fun latlng_to_cell pd res => ⟨rfl, rfl, rfl⟩, ?_⟩
  simp [assign_h3_to_population]
